import Mathlib

/-!
Verification of the mpdstreaming gateway core against its specification.

The definitions below are a shallow embedding of the Python source:
`app.py` (pipeline strategy selection, failure classifier, retry policy,
session registry), `clearkey_decrypt.py` (ClearKey parsing, segment
timeline construction, segment download/decryption) and
`decrypt_dash.py` (manual MPD segment-URL construction).  Byte strings
are `List Nat` with entries below 256, processes and the filesystem are
elided, and HTTP is an explicit fetch oracle.
-/

namespace MpdStreaming

/-! ## String utilities (Python `str.lower`, `in`, `replace`, `split`) -/

/-- ASCII lower-casing of one character, as Python `str.lower` acts on the
ASCII range; characters outside `A`–`Z` (in particular CJK characters,
which Python also leaves unchanged) are returned as they are. -/
def lowerChar (c : Char) : Char :=
  if 'A' ≤ c ∧ c ≤ 'Z' then Char.ofNat (c.toNat + 32) else c

/-- Python `s.lower()` restricted to ASCII letters. -/
def lowerStr (s : String) : String :=
  String.mk (s.data.map lowerChar)

/-- Does `needle` occur at the head of `hay`? -/
def headMatch : List Char → List Char → Bool
  | [], _ => true
  | _ :: _, [] => false
  | a :: as, b :: bs => a == b && headMatch as bs

/-- Does `needle` occur anywhere in `hay`?  Embeds Python's
`needle in hay` substring test. -/
def occursIn (needle : List Char) : List Char → Bool
  | [] => headMatch needle []
  | c :: rest => headMatch needle (c :: rest) || occursIn needle rest

/-- Python `needle in hay` on strings. -/
def strIn (needle hay : String) : Bool :=
  occursIn needle.data hay.data

/-- Python `any(k in s for k in keywords)`. -/
def anyKeywordIn (keywords : List String) (s : String) : Bool :=
  keywords.any (fun k => strIn k s)

/-! ## Failure classifier and retry policy (`app.py` lines 331–412) -/

/-- Embedding of `MPDToHLSStreamer._analyze_ffmpeg_error`: substring
classification of the captured process output (lower-cased), in the
source's fixed priority order, returning the source's (Chinese) message
strings. -/
def analyzeFfmpegError (output : String) (returnCode : Int) : String :=
  if output = "" then "进程异常退出 (代码: " ++ toString returnCode ++ ")"
  else
    let ol := lowerStr output
    if strIn "connection reset by peer" ol then "网络连接被重置，可能是源服务器问题或网络不稳定"
    else if strIn "connection refused" ol then "连接被拒绝，源服务器可能不可达"
    else if strIn "timeout" ol || strIn "timed out" ol then "连接超时，网络延迟过高或源服务器响应慢"
    else if strIn "403" ol || strIn "forbidden" ol then "访问被禁止，可能需要认证或IP被封"
    else if strIn "404" ol || strIn "not found" ol then "资源不存在，URL可能已失效"
    else if strIn "500" ol || strIn "internal server error" ol then "源服务器内部错误"
    else if strIn "ssl" ol || strIn "tls" ol then "SSL/TLS握手失败，可能是证书问题"
    else if strIn "invalid data" ol || strIn "corrupt" ol then "数据损坏或格式不支持"
    else if strIn "no decoder" ol then "缺少解码器或格式不支持"
    else if strIn "decryption" ol then "解密失败，密钥可能不正确"
    else if strIn "permission denied" ol then "文件权限错误"
    else if strIn "disk full" ol || strIn "no space" ol then "磁盘空间不足"
    else "未知错误 (代码: " ++ toString returnCode ++ ")"

/-- Keyword list of the non-retryable branch of
`MPDToHLSStreamer._should_retry_error`. -/
def noRetryKeywords : List String :=
  ["403", "forbidden", "not found", "404",
   "permission denied", "disk full", "no space",
   "no decoder", "format not support", "被禁止", "不存在"]

/-- Keyword list of the network branch of
`MPDToHLSStreamer._should_retry_error`. -/
def networkRetryKeywords : List String :=
  ["connection", "timeout", "network", "ssl", "tls", "连接", "超时", "网络"]

/-- Embedding of `MPDToHLSStreamer._should_retry_error`: decides whether a
classified error message is retried given the current restart count. -/
def shouldRetryError (errorAnalysis : String) (currentRestarts : Nat) : Bool :=
  let el := lowerStr errorAnalysis
  if anyKeywordIn noRetryKeywords el then false
  else if anyKeywordIn networkRetryKeywords el then currentRestarts < 2
  else true

/-- Keyword list of the exponential-backoff branch of
`MPDToHLSStreamer._get_retry_delay`. -/
def networkDelayKeywords : List String :=
  ["connection", "timeout", "network", "连接", "超时", "网络"]

/-- Keyword list of the server-error branch of
`MPDToHLSStreamer._get_retry_delay`. -/
def serverDelayKeywords : List String :=
  ["500", "internal server error", "ssl", "tls"]

/-- Embedding of `MPDToHLSStreamer._get_retry_delay` for `retry_count ≥ 1`
(every call site passes the just-incremented restart counter, which is at
least 1): exponential backoff capped at 30 for the network keyword class,
`base_delay * 2` for the server/TLS keyword class, else `base_delay`. -/
def getRetryDelay (errorAnalysis : String) (retryCount : Nat) : Nat :=
  let baseDelay := 5
  let el := lowerStr errorAnalysis
  if anyKeywordIn networkDelayKeywords el then
    min (baseDelay * 2 ^ (retryCount - 1)) 30
  else if anyKeywordIn serverDelayKeywords el then
    baseDelay * 2
  else baseDelay

/-! ## Template substitution and URL resolution -/

/-- One scan step of Python `str.replace`: replace every non-overlapping
occurrence of `nd` by `rep` left to right.  The fuel argument is the
length of the scanned list; one character is consumed per step for the
non-empty needles the source uses, so the fuel never runs out. -/
def replChAux (nd rep : List Char) : Nat → List Char → List Char
  | _, [] => []
  | 0, hay => hay
  | fuel + 1, c :: t =>
    if headMatch nd (c :: t) then
      rep ++ replChAux nd rep fuel (List.drop nd.length (c :: t))
    else c :: replChAux nd rep fuel t

/-- Python `s.replace(nd, rep)` for a non-empty needle. -/
def strReplace (s nd rep : String) : String :=
  String.mk (replChAux nd.data rep.data s.data.length s.data)

/-- Characters of `cs` up to and including its last slash (empty when
`cs` has no slash). -/
def upToLastSlash (cs : List Char) : List Char :=
  (cs.reverse.dropWhile (fun c => c != '/')).reverse

/-- Does the string start with an http or https scheme? -/
def startsWithHttp (s : String) : Bool :=
  headMatch "http://".data s.data || headMatch "https://".data s.data

/-- Model of `urllib.parse.urljoin` restricted to the reference shapes the
manifests produce: an absolute `http(s)` reference wins outright; a
relative reference (no scheme, no authority, no leading slash, no dot
segments) is appended to the base with its last path segment removed —
standard RFC 3986 merge for this class of references. -/
def urljoinModel (base rel : String) : String :=
  if startsWithHttp rel then rel
  else String.mk (upToLastSlash base.data ++ rel.data)

/-! ## Segment timeline construction
(`clearkey_decrypt.py`, `ClearKeyDecryptor._parse_timeline_segments`) -/

/-- One `<S>` element of a `SegmentTimeline`, after XML attribute parsing:
optional duration `d` and optional repeat `r`, both defaulting to 0 as in
`int(s_elem.get(..., 0))`. -/
structure SEntry where
  d : Option Int
  r : Option Int
deriving Repr, DecidableEq

/-- A segment descriptor as built by `_parse_timeline_segments`: the
Python dict with keys `type` (`init` or `media`), `url`, `number`,
`duration` and `representation_id` (an init descriptor carries no
number/duration; the embedding stores 0 there). -/
structure SegDesc where
  kind : String
  url : String
  number : Nat
  duration : Int
  repId : String
deriving Repr, DecidableEq

/-- The inner repetition loop of `_parse_timeline_segments`: emit `cnt`
media descriptors for one `<S>` entry, numbering them consecutively from
`n`, each with the entry's duration, substituting `$RepresentationID$`
then `$Number$` into the media template and resolving against the base
URL. -/
def timelineMediaSegs (mediaT repId baseUrl : String) (dur : Int) :
    Nat → Nat → List SegDesc
  | 0, _ => []
  | cnt + 1, n =>
    SegDesc.mk "media"
      (urljoinModel baseUrl
        (strReplace (strReplace mediaT "$RepresentationID$" repId)
          "$Number$" (toString n)))
      n dur repId ::
    timelineMediaSegs mediaT repId baseUrl dur cnt (n + 1)

/-- Number of media segments one `<S>` entry produces:
`repeat = int(s_elem.get('r', 0)) + 1` iterations of Python's `range`
(none when that quantity is not positive). -/
def entryCount (e : SEntry) : Nat := (e.r.getD 0 + 1).toNat

/-- Total number of media segments of a timeline. -/
def totalCount (entries : List SEntry) : Nat := (entries.map entryCount).sum

/-- The outer loop of `_parse_timeline_segments` over the `<S>` entries,
carrying the running segment counter: each entry contributes
`entryCount` repetitions with its own duration. -/
def timelineWalk (mediaT repId baseUrl : String) : List SEntry → Nat → List SegDesc
  | [], _ => []
  | e :: rest, n =>
    timelineMediaSegs mediaT repId baseUrl (e.d.getD 0) (entryCount e) n ++
      timelineWalk mediaT repId baseUrl rest (n + entryCount e)

/-- Embedding of `ClearKeyDecryptor._parse_timeline_segments`: an init
descriptor first when the initialization template is truthy (present and
non-empty), then the media descriptors of the timeline entries numbered
from 1. -/
def parseTimelineSegments (entries : List SEntry) (mediaT : String)
    (initT : Option String) (repId baseUrl : String) : List SegDesc :=
  (match initT with
   | some t =>
     if t != "" then
       [SegDesc.mk "init"
          (urljoinModel baseUrl (strReplace t "$RepresentationID$" repId))
          0 0 repId]
     else []
   | none => []) ++
  timelineWalk mediaT repId baseUrl entries 1

/-- The media descriptors of a parsed track, in order. -/
def mediaOf (segs : List SegDesc) : List SegDesc :=
  segs.filter (fun s => s.kind == "media")

/-! ## Segment download and decryption
(`clearkey_decrypt.py`, `download_segment`, `decrypt_segment`,
`_decrypt_segments`) -/

/-- The fixed all-zero 16-byte initialization vector the source uses as
default (`iv = b'\x00' * 16`). -/
def zeroIV : List Nat := List.replicate 16 0

/-- Bytewise XOR of two equal-length byte lists. -/
def xorBytes (a b : List Nat) : List Nat :=
  List.zipWith (fun x y => x ^^^ y) a b

/-- Split a byte list into 16-byte blocks (the last block may be short
when the input is not block-aligned; the callers guard against that). -/
def chunksAux : Nat → List Nat → List (List Nat)
  | _, [] => []
  | 0, l => [l]
  | fuel + 1, l => l.take 16 :: chunksAux fuel (l.drop 16)

/-- 16-byte blocks of a byte list. -/
def chunks16 (l : List Nat) : List (List Nat) := chunksAux l.length l

/-- CBC-mode decryption over a block list: each plaintext block is the
block-cipher decryption of the ciphertext block XORed with the previous
ciphertext block, the IV seeding the chain.  `bd` is the block cipher's
single-block decryption under the already-fixed key (AES-128 for the
source; treated as an opaque permutation here). -/
def cbcDecryptBlocks (bd : List Nat → List Nat) (iv : List Nat) :
    List (List Nat) → List Nat
  | [] => []
  | c :: rest => xorBytes (bd c) iv ++ cbcDecryptBlocks bd c rest

/-- CBC-mode decryption of a byte list, the semantics of
`AES.new(key, AES.MODE_CBC, iv).decrypt(data)` with `bd` the AES block
decryption under `key`. -/
def cbcDecrypt (bd : List Nat → List Nat) (iv data : List Nat) : List Nat :=
  cbcDecryptBlocks bd iv (chunks16 data)

/-- Semantics of `Crypto.Util.Padding.unpad(..., AES.block_size)` with
PKCS7 style: `none` exactly when the padding is invalid (empty input,
input not block-aligned, last byte outside 1..16, or trailing bytes not
all equal to the last byte). -/
def pkcs7Unpad (bs : List Nat) : Option (List Nat) :=
  if bs.length = 0 then none
  else if bs.length % 16 ≠ 0 then none
  else
    let n := bs.getLastD 0
    if 1 ≤ n ∧ n ≤ 16 ∧ (bs.drop (bs.length - n)).all (fun x => x == n) then
      some (bs.take (bs.length - n))
    else none

/-- The source's unpadding attempt: use the unpadded bytes when the
padding validates, silently keep the raw decrypted bytes otherwise. -/
def tryUnpad (bs : List Nat) : List Nat := (pkcs7Unpad bs).getD bs

/-- Key lengths `Crypto.Cipher.AES.new` accepts. -/
def aesKeyLenOk (key : List Nat) : Bool :=
  key.length == 16 || key.length == 24 || key.length == 32

/-- Embedding of `ClearKeyDecryptor.decrypt_segment`: with the default
all-zero IV when none is supplied, CBC-decrypt and attempt PKCS7
unpadding; any exception inside the source's `try` block (invalid key or
IV length raised by `AES.new`, non-block-aligned data raised by
`decrypt`) is caught and the raw encrypted input is returned unchanged. -/
def decryptSegment (bd : List Nat → List Nat → List Nat) (key : List Nat)
    (encrypted : List Nat) (iv : Option (List Nat)) : List Nat :=
  if aesKeyLenOk key && (iv.getD zeroIV).length == 16 &&
      encrypted.length % 16 == 0 then
    tryUnpad (cbcDecrypt (bd key) (iv.getD zeroIV) encrypted)
  else encrypted

/-- Embedding of `ClearKeyDecryptor.download_segment` over a fetch oracle
mapping a URL to an HTTP status and a body: any non-200 status raises. -/
def downloadSegment (fetch : String → Nat × List Nat) (url : String) :
    Except String (List Nat) :=
  if (fetch url).1 = 200 then Except.ok (fetch url).2
  else Except.error ("cannot download segment: HTTP " ++ toString (fetch url).1)

/-- Embedding of `ClearKeyDecryptor._decrypt_segments`: walk the
descriptors in list order, download each, decrypt the media ones with the
default IV, append everything to one output; the first failed download
aborts the whole track with its error. -/
def decryptSegments (fetch : String → Nat × List Nat)
    (bd : List Nat → List Nat → List Nat) (key : List Nat) :
    List SegDesc → Except String (List Nat)
  | [] => Except.ok []
  | s :: rest =>
    match downloadSegment fetch s.url with
    | Except.error e => Except.error e
    | Except.ok data =>
      match decryptSegments fetch bd key rest with
      | Except.error e => Except.error e
      | Except.ok tl =>
        Except.ok ((if s.kind == "media" then decryptSegment bd key data none
                    else data) ++ tl)

/-! ## Manual MPD segment-URL construction
(`decrypt_dash.py`, `DashClearKeyDecryptor._parse_mpd`) -/

/-- Embedding of the segment-URL loop of `DashClearKeyDecryptor._parse_mpd`
(lines 255–259): for `i` in 1..5, the code computes the `$Number$`
substitution into `_numbered` but immediately overwrites the variable by
re-substituting `$RepresentationID$` into the original template, so the
resolved URL keeps the literal `$Number$`.  The dead store is reproduced
faithfully. -/
def dashParseMpdSegmentUrls (mediaT repId baseUrl : String) : List (String × Nat) :=
  (List.range' 1 5).map (fun i =>
    let _numbered := strReplace mediaT "$Number$" (toString i)
    let withRep := strReplace mediaT "$RepresentationID$" repId
    (urljoinModel baseUrl withRep, i))

/-! ## ClearKey credential parsing (`clearkey_decrypt.py`, `parse_clearkey`) -/

/-- Value of one hexadecimal digit character, accepting both cases, as
`binascii.unhexlify` does; `none` on a non-hex character. -/
def hexDigitVal (c : Char) : Option Nat :=
  if '0' ≤ c ∧ c ≤ '9' then some (c.toNat - 48)
  else if 'a' ≤ c ∧ c ≤ 'f' then some (c.toNat - 87)
  else if 'A' ≤ c ∧ c ≤ 'F' then some (c.toNat - 55)
  else none

/-- Embedding of `binascii.unhexlify`: decodes an even-length hex string
into bytes, failing on odd length or on any non-hex character. -/
def unhexBytes : List Char → Option (List Nat)
  | [] => some []
  | [_] => none
  | a :: b :: rest =>
    match hexDigitVal a, hexDigitVal b, unhexBytes rest with
    | some hi, some lo, some tl => some ((16 * hi + lo) :: tl)
    | _, _, _ => none

/-- Lower-case hex digit character for a value below 16 (the encoding
direction used to state the round-trip property). -/
def hexDigitChar (n : Nat) : Char :=
  if n < 10 then Char.ofNat (48 + n) else Char.ofNat (87 + n)

/-- Lower-case hex encoding of a byte list, two digits per byte. -/
def hexChars : List Nat → List Char
  | [] => []
  | b :: t => hexDigitChar (b / 16) :: hexDigitChar (b % 16) :: hexChars t

/-- Python `s.replace("-", "")`: drop every dash. -/
def removeDashes (cs : List Char) : List Char :=
  cs.filter (fun c => c != '-')

/-- Split a character list at its first colon, `none` when no colon
occurs; embeds the combination of Python's `':' in license_key` test and
`license_key.split(':', 1)`. -/
def splitAtColon : List Char → Option (List Char × List Char)
  | [] => none
  | c :: t =>
    if c = ':' then some ([], t)
    else
      match splitAtColon t with
      | some (a, b) => some (c :: a, b)
      | none => none

/-- Embedding of `ClearKeyDecryptor.parse_clearkey`: reject a credential
without a colon, split at the first colon, strip dashes from each half and
hex-decode both; any decoding failure is an explicit error, a success
carries exactly the two decoded byte sequences. -/
def parseClearkey (licenseKey : String) : Except String (List Nat × List Nat) :=
  match splitAtColon licenseKey.data with
  | none => Except.error "ClearKey format error, expected key_id:key"
  | some (a, b) =>
    match unhexBytes (removeDashes a), unhexBytes (removeDashes b) with
    | some keyId, some key => Except.ok (keyId, key)
    | _, _ => Except.error "invalid hexadecimal format"

/-- Each hex digit value below 16 decodes back to itself. -/
theorem hexDigit_roundtrip : ∀ n < 16, hexDigitVal (hexDigitChar n) = some n := by
  decide

/-- Hex digit characters are neither colons nor dashes. -/
theorem hexDigitChar_plain : ∀ n < 16, hexDigitChar n ≠ ':' ∧ hexDigitChar n ≠ '-' := by
  decide

/-- Hex decoding inverts hex encoding on byte lists. -/
theorem unhexBytes_hexChars (bs : List Nat) (h : ∀ x ∈ bs, x < 256) :
    unhexBytes (hexChars bs) = some bs := by
  induction bs with
  | nil => rfl
  | cons b t ih =>
    have hb : b < 256 := h b (List.mem_cons_self b t)
    have hdiv : b / 16 < 16 := by omega
    have hmod : b % 16 < 16 := Nat.mod_lt _ (by norm_num)
    have ht : unhexBytes (hexChars t) = some t :=
      ih (fun x hx => h x (List.mem_cons_of_mem _ hx))
    simp only [hexChars, unhexBytes, hexDigit_roundtrip _ hdiv,
      hexDigit_roundtrip _ hmod, ht]
    rw [Nat.div_add_mod b 16]

/-- Every character of a hex encoding is a plain hex digit: no colon, no
dash. -/
theorem hexChars_plain (bs : List Nat) (h : ∀ x ∈ bs, x < 256) :
    ∀ c ∈ hexChars bs, c ≠ ':' ∧ c ≠ '-' := by
  induction bs with
  | nil => intro c hc; cases hc
  | cons b t ih =>
    intro c hc
    have hb : b < 256 := h b (List.mem_cons_self b t)
    have hdiv : b / 16 < 16 := by omega
    have hmod : b % 16 < 16 := Nat.mod_lt _ (by norm_num)
    simp only [hexChars, List.mem_cons] at hc
    rcases hc with rfl | rfl | hc
    · exact hexDigitChar_plain _ hdiv
    · exact hexDigitChar_plain _ hmod
    · exact ih (fun x hx => h x (List.mem_cons_of_mem _ hx)) c hc

/-- Splitting at the first colon of `xs ++ ':' :: ys` recovers the halves
when `xs` is colon-free. -/
theorem splitAtColon_append (xs ys : List Char) (h : ∀ c ∈ xs, c ≠ ':') :
    splitAtColon (xs ++ ':' :: ys) = some (xs, ys) := by
  induction xs with
  | nil => simp [splitAtColon]
  | cons c t ih =>
    have hc : c ≠ ':' := h c (List.mem_cons_self c t)
    simp only [List.cons_append, splitAtColon, if_neg hc, List.append_eq,
      ih (fun x hx => h x (List.mem_cons_of_mem _ hx))]

/-- A colon-free character list does not split. -/
theorem splitAtColon_none (cs : List Char) (h : ∀ c ∈ cs, c ≠ ':') :
    splitAtColon cs = none := by
  induction cs with
  | nil => rfl
  | cons c t ih =>
    have hc : c ≠ ':' := h c (List.mem_cons_self c t)
    simp only [splitAtColon, if_neg hc,
      ih (fun x hx => h x (List.mem_cons_of_mem _ hx))]

/-- Dash removal is the identity on dash-free lists. -/
theorem removeDashes_of_plain (cs : List Char) (h : ∀ c ∈ cs, c ≠ '-') :
    removeDashes cs = cs := by
  rw [removeDashes, List.filter_eq_self]
  intro a ha
  simpa using h a ha

/-! ## Pipeline strategy selector (`app.py`, `create_hls_stream`) -/

/-- The two pipeline strategies reachable from `create_hls_stream`:
`decryptPipe` spawns the external decrypting downloader piped into the
transcoder, `direct` spawns the single transcoder fed the source URL. -/
inductive Strategy
  | direct
  | decryptPipe
deriving DecidableEq, Repr

/-- Embedding of the strategy decision in
`MPDToHLSStreamer.create_hls_stream` (line 427): the decryption pipe is
chosen exactly when the license key is truthy (present and non-empty) and
its lower-cased text contains the substring `clearkey`; every other
request takes the direct FFmpeg path. -/
def selectStrategy (licenseKey : Option String) : Strategy :=
  match licenseKey with
  | none => Strategy.direct
  | some s =>
      if s != "" && strIn "clearkey" (lowerStr s) then Strategy.decryptPipe
      else Strategy.direct

end MpdStreaming

namespace MpdStreaming

/-! ## Timeline lemmas -/

/-- The repetition loop numbers its media descriptors consecutively from
its starting counter. -/
theorem timelineMediaSegs_map_number (mt rid b : String) (dur : Int) :
    ∀ (cnt n : Nat),
      (timelineMediaSegs mt rid b dur cnt n).map (fun s => s.number) = List.range' n cnt
  | 0, _ => rfl
  | cnt + 1, n => by
    simp only [timelineMediaSegs, List.map_cons, List.range'_succ,
      timelineMediaSegs_map_number mt rid b dur cnt (n + 1)]

/-- Every descriptor of one repetition loop carries the entry's duration. -/
theorem timelineMediaSegs_map_duration (mt rid b : String) (dur : Int) :
    ∀ (cnt n : Nat),
      (timelineMediaSegs mt rid b dur cnt n).map (fun s => s.duration) =
        List.replicate cnt dur
  | 0, _ => rfl
  | cnt + 1, n => by
    simp only [timelineMediaSegs, List.map_cons, List.replicate_succ,
      timelineMediaSegs_map_duration mt rid b dur cnt (n + 1)]

/-- The repetition loop emits media descriptors only. -/
theorem timelineMediaSegs_all_media (mt rid b : String) (dur : Int) :
    ∀ (cnt n : Nat), ∀ s ∈ timelineMediaSegs mt rid b dur cnt n, s.kind = "media"
  | 0, _ => by intro s hs; cases hs
  | cnt + 1, n => by
    intro s hs
    rcases List.mem_cons.mp hs with rfl | hs
    · rfl
    · exact timelineMediaSegs_all_media mt rid b dur cnt (n + 1) s hs

/-- The timeline walk numbers all media descriptors consecutively from
its starting counter across all entries. -/
theorem timelineWalk_map_number (mt rid b : String) :
    ∀ (entries : List SEntry) (n : Nat),
      (timelineWalk mt rid b entries n).map (fun s => s.number) =
        List.range' n (totalCount entries)
  | [], _ => rfl
  | e :: rest, n => by
    simp only [timelineWalk, List.map_append, timelineMediaSegs_map_number,
      timelineWalk_map_number mt rid b rest (n + entryCount e), totalCount,
      List.map_cons, List.sum_cons]
    rw [List.range'_append_1, Nat.add_comm]

/-- The timeline walk's durations are each entry's duration repeated
`entryCount` times, in entry order. -/
theorem timelineWalk_map_duration (mt rid b : String) :
    ∀ (entries : List SEntry) (n : Nat),
      (timelineWalk mt rid b entries n).map (fun s => s.duration) =
        entries.flatMap (fun e => List.replicate (entryCount e) (e.d.getD 0))
  | [], _ => rfl
  | e :: rest, n => by
    simp only [timelineWalk, List.map_append, timelineMediaSegs_map_duration,
      timelineWalk_map_duration mt rid b rest (n + entryCount e), List.flatMap_cons]

/-- The timeline walk emits media descriptors only. -/
theorem timelineWalk_all_media (mt rid b : String) :
    ∀ (entries : List SEntry) (n : Nat),
      ∀ s ∈ timelineWalk mt rid b entries n, s.kind = "media"
  | [], _ => by intro s hs; cases hs
  | e :: rest, n => by
    intro s hs
    rcases List.mem_append.mp hs with hs | hs
    · exact timelineMediaSegs_all_media mt rid b _ _ _ s hs
    · exact timelineWalk_all_media mt rid b rest (n + entryCount e) s hs

/-- The media descriptors of a parsed track are exactly the timeline
walk: the optional init descriptor is filtered out, nothing else is. -/
theorem mediaOf_parseTimelineSegments (entries : List SEntry) (mt : String)
    (initT : Option String) (rid b : String) :
    mediaOf (parseTimelineSegments entries mt initT rid b) =
      timelineWalk mt rid b entries 1 := by
  have hwalk : (timelineWalk mt rid b entries 1).filter (fun s => s.kind == "media") =
      timelineWalk mt rid b entries 1 := by
    rw [List.filter_eq_self]
    intro s hs
    rw [timelineWalk_all_media mt rid b entries 1 s hs]
    rfl
  rcases initT with _ | t
  · simpa [mediaOf, parseTimelineSegments] using hwalk
  · by_cases ht : (t != "") = true
    · simp only [mediaOf, parseTimelineSegments, if_pos ht, List.filter_append,
        List.filter_cons, List.filter_nil]
      rw [show ((SegDesc.mk "init"
          (urljoinModel b (strReplace t "$RepresentationID$" rid)) 0 0 rid).kind ==
            "media") = false from rfl]
      simpa using hwalk
    · simp only [mediaOf, parseTimelineSegments, if_neg ht, List.nil_append]
      exact hwalk

/-! ## Session registry, cleanup, restart and status
(`app.py`: `cleanup_session`, `cleanup_old_sessions`,
`_restart_ffmpeg_process`, `handle_get_stream_status`) -/

/-- The fields of one `self.sessions[stream_id]` dict the registry logic
reads and writes (process handles and command lines are elided: the
registry claims do not mention them). -/
structure SessionRec where
  status : String
  restartCount : Nat
  createdAt : Nat
  outputDir : String
  lastError : String
deriving Repr, DecidableEq

/-- The fields of one `self.active_streams[stream_id]` dict. -/
structure ActiveRec where
  status : String
  startedAt : Nat
  mpdUrl : String
  licenseKey : Option String
deriving Repr, DecidableEq

/-- One entry of `self.config['streams']`. -/
structure StreamCfg where
  id : String
  url : String
  licenseKey : Option String
deriving Repr, DecidableEq

/-- The streamer's mutable state: the session registry, the separate
active-stream status map, the set of existing output directories, and the
(immutable here) stream configuration. -/
structure SysState where
  sessions : List (String × SessionRec)
  activeStreams : List (String × ActiveRec)
  dirs : List String
  config : List StreamCfg
deriving Repr, DecidableEq

/-- Python dict lookup on an association list (first binding wins). -/
def lookupA {α : Type} (l : List (String × α)) (k : String) : Option α :=
  (l.find? (fun p => p.1 == k)).map (fun p => p.2)

/-- Python `del d[k]` on an association list. -/
def removeA {α : Type} (l : List (String × α)) (k : String) : List (String × α) :=
  l.filter (fun p => p.1 != k)

/-- Embedding of `MPDToHLSStreamer.cleanup_session`: when the stream id is
registered, terminate its processes (elided), delete its output directory
tree and remove it from the session registry; a no-op otherwise.  The
active-stream map is not touched. -/
def cleanupSession (st : SysState) (id : String) : SysState :=
  match lookupA st.sessions id with
  | none => st
  | some s =>
    SysState.mk (removeA st.sessions id) st.activeStreams
      (st.dirs.filter (fun d => d != s.outputDir)) st.config

/-- Embedding of `MPDToHLSStreamer.cleanup_old_sessions`: collect the ids
of sessions older than 3600 seconds since creation and clean each up. -/
def cleanupOldSessions (st : SysState) (now : Nat) : SysState :=
  ((st.sessions.filter (fun p => 3600 < now - p.2.createdAt)).map
    (fun p => p.1)).foldl cleanupSession st

/-- Embedding of `MPDToHLSStreamer._restart_ffmpeg_process`: the monitor's
restart step executed after the retry delay.  It first re-checks registry
membership and returns with no effect when the session is gone; otherwise
it terminates the old process (elided), looks up the stream configuration
(returning when absent), deletes both registry entries and re-creates the
stream through `create_hls_stream`, which registers a fresh `starting`
session and active entry; the preserved restart counter and error are
restored into the fresh session immediately afterwards (modeled as the
net record). -/
def restartFfmpegProcess (st : SysState) (id : String) (now : Nat) : SysState :=
  match lookupA st.sessions id with
  | none => st
  | some sess =>
    match st.config.find? (fun c => c.id == id) with
    | none => st
    | some cfg =>
      SysState.mk
        ((id, SessionRec.mk "starting" sess.restartCount now ("tmp/" ++ id)
            sess.lastError) :: removeA st.sessions id)
        ((id, ActiveRec.mk "starting" now cfg.url cfg.licenseKey) ::
          removeA st.activeStreams id)
        (("tmp/" ++ id) :: st.dirs)
        st.config

/-- The status endpoint's view of one stream. -/
structure StatusView where
  running : Bool
  status : String
deriving Repr, DecidableEq

/-- Embedding of the registry-derived part of
`MPDToHLSStreamer.handle_get_stream_status`: 404 (`none`) when the id is
not configured; otherwise `running` is registry membership and `status`
comes from the active-stream map, defaulting to `stopped`. -/
def handleGetStreamStatus (st : SysState) (id : String) : Option StatusView :=
  match st.config.find? (fun c => c.id == id) with
  | none => none
  | some _ =>
    some (StatusView.mk (lookupA st.sessions id).isSome
      (((lookupA st.activeStreams id).map (fun a => a.status)).getD "stopped"))

/-! ## Registry lemmas -/

/-- Deleting a key makes its lookup fail. -/
theorem lookupA_removeA {α : Type} (l : List (String × α)) (k : String) :
    lookupA (removeA l k) k = none := by
  induction l with
  | nil => rfl
  | cons p t ih =>
    by_cases h : (p.1 != k) = true
    · have hne : (p.1 == k) = false := by
        simpa [bne] using h
      simp only [removeA, List.filter_cons, if_pos h]
      simp only [lookupA, List.find?, hne]
      exact ih
    · simp only [removeA, List.filter_cons, if_neg h]
      exact ih

/-- A failed lookup stays failed under any filtering. -/
theorem lookupA_filter_none {α : Type} (l : List (String × α)) (k : String)
    (p : String × α → Bool) (h : lookupA l k = none) :
    lookupA (l.filter p) k = none := by
  induction l with
  | nil => rfl
  | cons q t ih =>
    by_cases hq : (q.1 == k) = true
    · exact absurd h (by simp [lookupA, List.find?, hq])
    · have ht : lookupA t k = none := by
        simpa [lookupA, List.find?, hq] using h
      by_cases hp : p q = true
      · simp only [List.filter_cons, if_pos hp]
        simpa [lookupA, List.find?, hq] using ih ht
      · simp only [List.filter_cons, if_neg hp]
        exact ih ht

/-- Cleaning up any session never touches the active-stream map. -/
theorem cleanupSession_activeStreams (st : SysState) (id : String) :
    (cleanupSession st id).activeStreams = st.activeStreams := by
  unfold cleanupSession
  cases lookupA st.sessions id <;> rfl

/-- Cleaning up any session never touches the configuration. -/
theorem cleanupSession_config (st : SysState) (id : String) :
    (cleanupSession st id).config = st.config := by
  unfold cleanupSession
  cases lookupA st.sessions id <;> rfl

/-- After cleanup the id is no longer registered. -/
theorem cleanupSession_lookup_none (st : SysState) (id : String) :
    lookupA (cleanupSession st id).sessions id = none := by
  unfold cleanupSession
  cases h : lookupA st.sessions id with
  | none => exact h
  | some s => exact lookupA_removeA st.sessions id

/-- Cleanup of one session keeps every other absent id absent. -/
theorem cleanupSession_preserves_none (st : SysState) (id j : String)
    (h : lookupA st.sessions id = none) :
    lookupA (cleanupSession st j).sessions id = none := by
  unfold cleanupSession
  cases lookupA st.sessions j with
  | none => exact h
  | some s => exact lookupA_filter_none st.sessions id _ h

/-- The age sweep never touches the active-stream map, whatever ids it
visits. -/
theorem foldl_cleanup_active : ∀ (l : List String) (st : SysState),
    ((l.foldl cleanupSession st).activeStreams) = st.activeStreams
  | [], _ => rfl
  | j :: t, st => by
    rw [List.foldl_cons, foldl_cleanup_active t (cleanupSession st j),
      cleanupSession_activeStreams]

/-- The age sweep never touches the configuration. -/
theorem foldl_cleanup_config : ∀ (l : List String) (st : SysState),
    ((l.foldl cleanupSession st).config) = st.config
  | [], _ => rfl
  | j :: t, st => by
    rw [List.foldl_cons, foldl_cleanup_config t (cleanupSession st j),
      cleanupSession_config]

/-- The age sweep keeps an absent id absent. -/
theorem foldl_cleanup_none : ∀ (l : List String) (st : SysState) (id : String),
    lookupA st.sessions id = none →
    lookupA ((l.foldl cleanupSession st).sessions) id = none
  | [], _, _, h => h
  | j :: t, st, id, h =>
    foldl_cleanup_none t _ id (cleanupSession_preserves_none st id j h)

/-- Every id the sweep visits ends up unregistered. -/
theorem foldl_cleanup_mem_none : ∀ (l : List String) (st : SysState) (id : String),
    id ∈ l → lookupA ((l.foldl cleanupSession st).sessions) id = none
  | [], _, _, h => absurd h (List.not_mem_nil _)
  | j :: t, st, id, hmem => by
    rcases List.mem_cons.mp hmem with rfl | hmem
    · exact foldl_cleanup_none t _ id (cleanupSession_lookup_none st id)
    · exact foldl_cleanup_mem_none t _ id hmem

/-! ## Decryption lemmas -/

/-- On a 16-byte key and block-aligned data, `decrypt_segment` with no
explicit IV CBC-decrypts under the all-zero IV and attempts PKCS7
unpadding. -/
theorem decryptSegment_valid (bd : List Nat → List Nat → List Nat)
    (key data : List Nat) (hkey : key.length = 16)
    (hblk : data.length % 16 = 0) :
    decryptSegment bd key data none = tryUnpad (cbcDecrypt (bd key) zeroIV data) := by
  have hc : (aesKeyLenOk key && ((none : Option (List Nat)).getD zeroIV).length == 16 &&
      data.length % 16 == 0) = true := by
    simp [aesKeyLenOk, hkey, hblk, zeroIV]
  unfold decryptSegment
  rw [if_pos hc]
  rfl

/-- On non-block-aligned data, the exception raised inside
`decrypt_segment` is swallowed and the raw encrypted bytes come back. -/
theorem decryptSegment_invalid (bd : List Nat → List Nat → List Nat)
    (key data : List Nat) (hblk : data.length % 16 ≠ 0) :
    decryptSegment bd key data none = data := by
  have hc : ¬ ((aesKeyLenOk key && ((none : Option (List Nat)).getD zeroIV).length == 16 &&
      data.length % 16 == 0) = true) := by
    simp [aesKeyLenOk, hblk, zeroIV]
  unfold decryptSegment
  rw [if_neg hc]

/-! ## Claim theorems for the selector and the retry policy -/

/-- C1 (counterexample): the repository's own ClearKey test credential
`"1234567890abcdef1234567890abcdef:fedcba0987654321fedcba0987654321"` is a
non-empty license key, yet `create_hls_stream` routes it to the Direct
strategy (a single transcoder process), because the selection condition
requires the substring `clearkey` inside the license key itself; this
refutes the claim that Direct is chosen only when no license key is
present (no decrypting-downloader availability check is consulted). -/
theorem c1_selector_counterexample :
    selectStrategy
        (some "1234567890abcdef1234567890abcdef:fedcba0987654321fedcba0987654321") =
      Strategy.direct ∧
    "1234567890abcdef1234567890abcdef:fedcba0987654321fedcba0987654321" ≠ "" := by
  exact ⟨by decide, by decide⟩

/-- C1 (amended): the strategy selector chooses DecryptPipe exactly when a
license key is present, non-empty, and its lower-cased text contains the
substring `clearkey`; in every other case — including a non-empty license
key without that substring — it chooses Direct.  External decrypting
downloader availability is not consulted at selection time. -/
theorem c1_selector_amended (lk : Option String) :
    selectStrategy lk = Strategy.decryptPipe ↔
      ∃ s, lk = some s ∧ s ≠ "" ∧ strIn "clearkey" (lowerStr s) = true := by
  cases lk with
  | none => simp [selectStrategy]
  | some s =>
    simp only [selectStrategy]
    by_cases h : (s != "" && strIn "clearkey" (lowerStr s)) = true
    · rw [if_pos h]
      simp only [Bool.and_eq_true, bne_iff_ne, ne_eq] at h
      simp [h.1, h.2]
    · rw [if_neg h]
      simp only [Bool.and_eq_true, bne_iff_ne, ne_eq, not_and] at h
      constructor
      · intro hc; cases hc
      · rintro ⟨t, ht, hne, hck⟩
        cases Option.some.inj ht
        exact absurd hck (by simpa using h hne)

/-- C4: parsing a ClearKey credential whose two halves are valid
even-length hexadecimal round-trips to exactly the byte sequences encoded
by each half; and parsing any string without a colon reports an explicit
parse failure (`ValueError`, the embedding's `Except.error`), never a
silently-empty or partially-populated credential. -/
theorem c4_parse_clearkey :
    (∀ (keyId key : List Nat), (∀ x ∈ keyId, x < 256) → (∀ x ∈ key, x < 256) →
       parseClearkey (String.mk (hexChars keyId ++ ':' :: hexChars key)) =
         Except.ok (keyId, key)) ∧
    (∀ s : String, (∀ c ∈ s.data, c ≠ ':') →
       ∃ msg, parseClearkey s = Except.error msg) := by
  constructor
  · intro keyId key h1 h2
    have hsplit := splitAtColon_append (hexChars keyId) (hexChars key)
      (fun c hc => (hexChars_plain keyId h1 c hc).1)
    simp only [parseClearkey, hsplit,
      removeDashes_of_plain _ (fun c hc => (hexChars_plain keyId h1 c hc).2),
      removeDashes_of_plain _ (fun c hc => (hexChars_plain key h2 c hc).2),
      unhexBytes_hexChars keyId h1, unhexBytes_hexChars key h2]
  · intro s hs
    exact ⟨"ClearKey format error, expected key_id:key", by
      simp only [parseClearkey, splitAtColon_none s.data hs]⟩

/-- C4 witness: the credential built from bytes `[0x12, 0xff]` and
`[0x00, 0xab]` (text `12ff:00ab`) parses back to those bytes, and the
colon-free string `invalidkeyformat` (the repository's own negative test
input, dashless form) is rejected with an error. -/
theorem c4_parse_clearkey_witness :
    parseClearkey (String.mk (hexChars [18, 255] ++ ':' :: hexChars [0, 171])) =
      Except.ok ([18, 255], [0, 171]) ∧
    (∃ msg, parseClearkey "invalidkeyformat" = Except.error msg) :=
  ⟨c4_parse_clearkey.1 [18, 255] [0, 171] (by decide) (by decide),
   c4_parse_clearkey.2 "invalidkeyformat" (by decide)⟩

/-- C9: stopping a session (removing it from the registry via
`cleanup_session`) while its monitor waits out a retry delay prevents the
pending restart: after the cleanup the id is no longer registered, and
the monitor's restart step `_restart_ffmpeg_process` — which re-checks
registry membership first — leaves the whole state unchanged, so the
session is neither re-created nor moved back to `starting` by its own
monitor task, whatever the state, stream id and wall-clock time. -/
theorem c9_stop_cancels_restart (st : SysState) (id : String) (now : Nat) :
    lookupA (cleanupSession st id).sessions id = none ∧
    restartFfmpegProcess (cleanupSession st id) id now = cleanupSession st id := by
  refine ⟨cleanupSession_lookup_none st id, ?_⟩
  unfold restartFfmpegProcess
  rw [cleanupSession_lookup_none st id]

/-- C10: session cleanup removes the registry entry and deletes the
session's output directory but never modifies the active-stream status
map; the hourly age sweep likewise; hence after the sweep reclaims an
aged session, the status endpoint still reports the stale active-map
status (e.g. `running`) with `running = false` while the session itself
is gone. -/
theorem c10_cleanup_leaves_active_map (st : SysState) (id : String) (now : Nat)
    (s : SessionRec) (a : ActiveRec)
    (hs : lookupA st.sessions id = some s)
    (hage : 3600 < now - s.createdAt)
    (ha : lookupA st.activeStreams id = some a) :
    (cleanupSession st id).activeStreams = st.activeStreams ∧
    s.outputDir ∉ (cleanupSession st id).dirs ∧
    (cleanupOldSessions st now).activeStreams = st.activeStreams ∧
    lookupA (cleanupOldSessions st now).sessions id = none ∧
    handleGetStreamStatus (cleanupOldSessions st now) id =
      (st.config.find? (fun c => c.id == id)).map
        (fun _ => StatusView.mk false a.status) := by
  have hexp : id ∈ (st.sessions.filter (fun p => 3600 < now - p.2.createdAt)).map
      (fun p => p.1) := by
    rcases Option.map_eq_some'.mp hs with ⟨q, hq, hq2⟩
    have hqmem : q ∈ st.sessions := List.mem_of_find?_eq_some hq
    have hqpred := List.find?_some hq
    have hqid : q.1 = id := by simpa using hqpred
    refine List.mem_map.mpr ⟨q, List.mem_filter.mpr ⟨hqmem, ?_⟩, hqid⟩
    simp [hq2, hage]
  have hnone : lookupA (cleanupOldSessions st now).sessions id = none :=
    foldl_cleanup_mem_none _ st id hexp
  have hact : (cleanupOldSessions st now).activeStreams = st.activeStreams :=
    foldl_cleanup_active _ st
  have hcfg : (cleanupOldSessions st now).config = st.config :=
    foldl_cleanup_config _ st
  refine ⟨cleanupSession_activeStreams st id, ?_, hact, hnone, ?_⟩
  · unfold cleanupSession
    rw [hs]
    intro hmem
    have := List.mem_filter.mp hmem
    simp at this
  · unfold handleGetStreamStatus
    rw [hcfg, hact, hnone, ha]
    cases st.config.find? (fun c => c.id == id) <;> rfl

/-- C10 witness: a session created at time 100 and swept at time 4000
disappears from the registry while the status endpoint still answers
`running` (with registry membership `false`) from the untouched
active-stream map. -/
theorem c10_cleanup_leaves_active_map_witness :
    lookupA (cleanupOldSessions
        (SysState.mk [("s1", SessionRec.mk "running" 0 100 "tmp/s1" "")]
          [("s1", ActiveRec.mk "running" 100 "http://e.com/m.mpd" none)]
          ["tmp/s1"] [StreamCfg.mk "s1" "http://e.com/m.mpd" none]) 4000).sessions
      "s1" = none ∧
    handleGetStreamStatus (cleanupOldSessions
        (SysState.mk [("s1", SessionRec.mk "running" 0 100 "tmp/s1" "")]
          [("s1", ActiveRec.mk "running" 100 "http://e.com/m.mpd" none)]
          ["tmp/s1"] [StreamCfg.mk "s1" "http://e.com/m.mpd" none]) 4000) "s1" =
      some (StatusView.mk false "running") := by
  have h := c10_cleanup_leaves_active_map
    (SysState.mk [("s1", SessionRec.mk "running" 0 100 "tmp/s1" "")]
      [("s1", ActiveRec.mk "running" 100 "http://e.com/m.mpd" none)]
      ["tmp/s1"] [StreamCfg.mk "s1" "http://e.com/m.mpd" none])
    "s1" 4000 (SessionRec.mk "running" 0 100 "tmp/s1" "")
    (ActiveRec.mk "running" 100 "http://e.com/m.mpd" none)
    (by decide) (by decide) (by decide)
  refine ⟨h.2.2.2.1, ?_⟩
  rw [h.2.2.2.2]
  rfl

/-- C7: on a 16-byte key, when every segment download succeeds and every
media payload is block-aligned, track decryption produces exactly the
in-order concatenation of the per-descriptor results: init segments
byte-for-byte unmodified, media segments AES-CBC-decrypted under the
supplied key with the all-zero 16-byte IV and then PKCS7-unpadded when
the padding validates, the raw decrypted bytes kept otherwise. -/
theorem c7_decrypt_track (fetch : String → Nat × List Nat)
    (bd : List Nat → List Nat → List Nat) (key : List Nat)
    (segs : List SegDesc)
    (hkey : key.length = 16)
    (hok : ∀ s ∈ segs, (fetch s.url).1 = 200)
    (hblk : ∀ s ∈ segs, s.kind = "media" → (fetch s.url).2.length % 16 = 0) :
    decryptSegments fetch bd key segs =
      Except.ok (segs.flatMap (fun s =>
        if s.kind == "media" then
          tryUnpad (cbcDecrypt (bd key) zeroIV (fetch s.url).2)
        else (fetch s.url).2)) := by
  induction segs with
  | nil => rfl
  | cons s rest ih =>
    have h200 : (fetch s.url).1 = 200 := hok s (List.mem_cons_self s rest)
    have hrest := ih (fun x hx => hok x (List.mem_cons_of_mem _ hx))
      (fun x hx hm => hblk x (List.mem_cons_of_mem _ hx) hm)
    simp only [decryptSegments, downloadSegment, if_pos h200, hrest, List.flatMap_cons]
    by_cases hm : (s.kind == "media") = true
    · rw [if_pos hm, if_pos hm,
        decryptSegment_valid bd key _ hkey
          (hblk s (List.mem_cons_self s rest) (by simpa using hm))]
    · rw [if_neg hm, if_neg hm]

/-- C7 witness: a track of one init segment (bytes `[1, 2, 3]`) and one
media segment (16 zero bytes) under the identity block cipher decrypts to
the init bytes unmodified followed by the CBC-decrypted media bytes —
which fail PKCS7 validation (last byte 0) and are therefore kept raw. -/
theorem c7_decrypt_track_witness :
    decryptSegments
        (fun u => if u == "http://cdn/init.mp4" then (200, [1, 2, 3])
                  else (200, List.replicate 16 0))
        (fun _ b => b) (List.replicate 16 0)
        [SegDesc.mk "init" "http://cdn/init.mp4" 0 0 "v",
         SegDesc.mk "media" "http://cdn/seg1.m4s" 1 0 "v"] =
      Except.ok ([1, 2, 3] ++ List.replicate 16 0) := by
  have h := c7_decrypt_track
    (fun u => if u == "http://cdn/init.mp4" then (200, [1, 2, 3])
              else (200, List.replicate 16 0))
    (fun _ b => b) (List.replicate 16 0)
    [SegDesc.mk "init" "http://cdn/init.mp4" 0 0 "v",
     SegDesc.mk "media" "http://cdn/seg1.m4s" 1 0 "v"]
    (by decide) (by decide) (by decide)
  rw [h]
  rfl

/-- C8 (counterexample): a cryptographic failure while decrypting a media
segment does not fail the track with a `DecryptionError` — the 1-byte
payload `[7]` cannot be AES-CBC-decrypted (not block-aligned), the
source's `except` swallows the error, and the track decryption succeeds
returning the raw encrypted byte. -/
theorem c8_crypto_failure_counterexample :
    decryptSegments (fun _ => (200, [7])) (fun _ b => b) (List.replicate 16 0)
        [SegDesc.mk "media" "http://cdn/seg1.m4s" 1 0 "v"] =
      Except.ok [7] := rfl

/-- C8 (amended): track decryption fails whenever any single segment
download returns a non-success HTTP status — the failure aborts the whole
track, no partial output is returned; a cryptographic failure while
decrypting a media segment, however, is silently swallowed: the raw
encrypted bytes are used and no error is raised. -/
theorem c8_download_abort_amended :
    (∀ (fetch : String → Nat × List Nat) (bd : List Nat → List Nat → List Nat)
       (key : List Nat) (segs : List SegDesc),
       (∃ s ∈ segs, (fetch s.url).1 ≠ 200) →
       ∃ e, decryptSegments fetch bd key segs = Except.error e) ∧
    (∀ (bd : List Nat → List Nat → List Nat) (key data : List Nat),
       data.length % 16 ≠ 0 → decryptSegment bd key data none = data) := by
  constructor
  · intro fetch bd key segs
    induction segs with
    | nil =>
      rintro ⟨s, hs, _⟩
      cases hs
    | cons s rest ih =>
      rintro ⟨x, hx, hxne⟩
      by_cases hs200 : (fetch s.url).1 = 200
      · rcases List.mem_cons.mp hx with rfl | hx
        · exact absurd hs200 hxne
        · rcases ih ⟨x, hx, hxne⟩ with ⟨e, herr⟩
          exact ⟨e, by simp only [decryptSegments, downloadSegment, if_pos hs200, herr]⟩
      · exact ⟨"cannot download segment: HTTP " ++ toString (fetch s.url).1,
          by simp only [decryptSegments, downloadSegment, if_neg hs200]⟩
  · exact decryptSegment_invalid

/-- C8 witness: a track whose only segment download answers HTTP 404
aborts with an error, and the non-block-aligned payload `[7]` passes
through segment decryption unchanged. -/
theorem c8_download_abort_amended_witness :
    (∃ e, decryptSegments (fun _ => (404, [])) (fun _ b => b) (List.replicate 16 0)
        [SegDesc.mk "media" "u" 1 0 "v"] = Except.error e) ∧
    decryptSegment (fun _ b => b) (List.replicate 16 0) [7] none = [7] :=
  ⟨c8_download_abort_amended.1 _ _ _ _ ⟨SegDesc.mk "media" "u" 1 0 "v", by decide, by decide⟩,
   c8_download_abort_amended.2 _ _ [7] (by decide)⟩

/-- C5 (code divergence, evaluated): `DashClearKeyDecryptor._parse_mpd`
replaces `$RepresentationID$` but loses the `$Number$` substitution — the
loop recomputes the URL from the original template after substituting the
number, so all five constructed segment URLs are identical and keep the
literal `$Number$` (first conjunct); the second conjunct shows the URL
the claim requires for segment 1 — template with both placeholders
substituted in sequence, resolved against the manifest's base — which is
what `clearkey_decrypt.py` produces but `decrypt_dash.py` does not. -/
theorem c5_dash_number_unsubstituted :
    dashParseMpdSegmentUrls "segment_$RepresentationID$_$Number$.m4s" "video1"
        "http://example.com/stream/manifest.mpd" =
      [("http://example.com/stream/segment_video1_$Number$.m4s", 1),
       ("http://example.com/stream/segment_video1_$Number$.m4s", 2),
       ("http://example.com/stream/segment_video1_$Number$.m4s", 3),
       ("http://example.com/stream/segment_video1_$Number$.m4s", 4),
       ("http://example.com/stream/segment_video1_$Number$.m4s", 5)] ∧
    urljoinModel "http://example.com/stream/manifest.mpd"
        (strReplace (strReplace "segment_$RepresentationID$_$Number$.m4s"
          "$RepresentationID$" "video1") "$Number$" "1") =
      "http://example.com/stream/segment_video1_1.m4s" := by
  exact ⟨by decide, by decide⟩

/-- C6: in a `SegmentTimeline` each `<S>` entry with repeat attribute `r`
(defaulting to 0 when absent) produces exactly `r + 1` media segments
carrying that entry's duration `d` (defaulting to 0 when absent), and the
media segments of the whole track are numbered consecutively starting at
1 across the entire timeline, the init descriptor excluded. -/
theorem c6_timeline_repeat (entries : List SEntry) (mediaT : String)
    (initT : Option String) (repId baseUrl : String)
    (h : ∀ e ∈ entries, 0 ≤ e.r.getD 0) :
    (mediaOf (parseTimelineSegments entries mediaT initT repId baseUrl)).map
        (fun s => s.number) =
      List.range' 1 ((entries.map (fun e => (e.r.getD 0).toNat + 1)).sum) ∧
    (mediaOf (parseTimelineSegments entries mediaT initT repId baseUrl)).map
        (fun s => s.duration) =
      entries.flatMap (fun e => List.replicate ((e.r.getD 0).toNat + 1) (e.d.getD 0)) := by
  have hcnt : ∀ e ∈ entries, entryCount e = (e.r.getD 0).toNat + 1 := by
    intro e he
    have := h e he
    unfold entryCount
    omega
  have hmap : entries.map entryCount =
      entries.map (fun e => (e.r.getD 0).toNat + 1) :=
    List.map_congr_left hcnt
  have hrep : entries.map (fun e => List.replicate (entryCount e) (e.d.getD 0)) =
      entries.map (fun e => List.replicate ((e.r.getD 0).toNat + 1) (e.d.getD 0)) :=
    List.map_congr_left (fun e he => by rw [hcnt e he])
  rw [mediaOf_parseTimelineSegments]
  constructor
  · rw [timelineWalk_map_number, totalCount, hmap]
  · rw [timelineWalk_map_duration, List.flatMap, List.flatMap, hrep]

/-- C6 witness: the spec's own example — `<S d="2" r="2">` followed by
`<S d="3">` — yields media segments numbered 1, 2, 3, 4 with durations
2, 2, 2, 3. -/
theorem c6_timeline_repeat_witness :
    (mediaOf (parseTimelineSegments [SEntry.mk (some 2) (some 2), SEntry.mk (some 3) none]
        "seg_$RepresentationID$_$Number$.m4s" (some "init_$RepresentationID$.mp4")
        "v1" "http://example.com/d/manifest.mpd")).map (fun s => s.number) =
      [1, 2, 3, 4] ∧
    (mediaOf (parseTimelineSegments [SEntry.mk (some 2) (some 2), SEntry.mk (some 3) none]
        "seg_$RepresentationID$_$Number$.m4s" (some "init_$RepresentationID$.mp4")
        "v1" "http://example.com/d/manifest.mpd")).map (fun s => s.duration) =
      [2, 2, 2, 3] := by
  have h := c6_timeline_repeat [SEntry.mk (some 2) (some 2), SEntry.mk (some 3) none]
    "seg_$RepresentationID$_$Number$.m4s" (some "init_$RepresentationID$.mp4")
    "v1" "http://example.com/d/manifest.mpd" (by decide)
  exact ⟨by rw [h.1]; decide, by rw [h.2]; decide⟩

/-- C2 (code divergence, evaluated): process outputs that the classifier
maps to the permission-denied, disk-full and missing-decoder categories
are retried after all — `_should_retry_error` answers `true` on the
classifier's message for each of them at restart count 0 — because the
retry filter's English keywords (`permission denied`, `disk full`,
`no space`, `no decoder`, `format not support`) never occur in the
classifier's Chinese messages.  The forbidden and not-found categories do
behave as claimed (their messages contain the Chinese keywords the filter
also checks). -/
theorem c2_nonretryable_divergence :
    shouldRetryError (analyzeFfmpegError "permission denied" 1) 0 = true ∧
    shouldRetryError (analyzeFfmpegError "disk full" 1) 0 = true ∧
    shouldRetryError (analyzeFfmpegError "no decoder" 1) 0 = true ∧
    shouldRetryError (analyzeFfmpegError "403 forbidden" 1) 0 = false ∧
    shouldRetryError (analyzeFfmpegError "404 not found" 1) 0 = false := by
  exact ⟨by decide, by decide, by decide, by decide, by decide⟩

/-- C3 (code divergence, evaluated): a process output classified as a
server error (HTTP 500) receives the default flat 5-second retry delay,
not the claimed 10 seconds: `_get_retry_delay`'s server branch looks for
the keywords `500` / `internal server error`, which never occur in the
classifier's Chinese server-error message.  The SSL/TLS message does
reach the 10-second branch, and the network-class messages do get the
capped exponential backoff 5, 10, 30 at restart counts 1, 2, 4. -/
theorem c3_retry_delay_divergence :
    analyzeFfmpegError "500" 1 = "源服务器内部错误" ∧
    getRetryDelay (analyzeFfmpegError "500" 1) 1 = 5 ∧
    getRetryDelay (analyzeFfmpegError "ssl handshake failed" 1) 1 = 10 ∧
    getRetryDelay (analyzeFfmpegError "timeout" 1) 1 = 5 ∧
    getRetryDelay (analyzeFfmpegError "timeout" 1) 2 = 10 ∧
    getRetryDelay (analyzeFfmpegError "timeout" 1) 4 = 30 := by
  exact ⟨by decide, by decide, by decide, by decide, by decide, by decide⟩

end MpdStreaming

